import Mathlib

/-!
Verification of the svdconv-check diagnostic pipeline: the SVDConv output
parser and aggregator (src/svdconv.ts) and the per-batch annotation builder
and orchestration control flow (src/main.ts), modelled as pure Lean
functions.  Machine numbers are modelled exactly: the only numeric values
the modelled code produces are natural numbers parsed from digit strings
and the JavaScript `NaN` sentinel (from `Number(undefined)`).
-/

namespace Svd

/-- A JavaScript number as it occurs in this program: either `NaN`
(produced by `Number(match[4])` when the optional line-number capture
group is absent) or a natural number parsed from a digit string.  No
other numeric values arise in the modelled code.  `NaN` is a legitimate
`Map` key in JavaScript (SameValueZero equates `NaN` with itself), which
the derived decidable equality mirrors. -/
inductive JSNumber where
  | nan : JSNumber
  | num : Nat → JSNumber
deriving DecidableEq, Repr

/-- src/svdconv.ts `interface Stats`, field order as in the source. -/
structure Stats where
  notes : Nat
  errors : Nat
  warnings : Nat
deriving DecidableEq, Repr

/-- src/svdconv.ts `interface Message`. -/
structure Message where
  level : String
  code : String
  line : JSNumber
  message : String
deriving DecidableEq, Repr

/-- The JS `Map<number, Array<Message>>` with its insertion order made
explicit as an association list: JS `Map` iterates keys in insertion
order, and `keys().next()` yields the first inserted key. -/
abbrev GroupedMessages := List (JSNumber × List Message)

/-- src/svdconv.ts `interface Result`. -/
structure Result where
  messages : GroupedMessages
  stats : Stats
deriving DecidableEq, Repr

/-- src/svdconv.ts `enum ParserState`. -/
inductive ParserState where
  | MESSAGE_LINE : ParserState
  | DESCRIPTION_LINE : ParserState
  | NOISE : ParserState
deriving DecidableEq, Repr

/-- The exception raised by `line.match(MESSAGE_PATTERN)!` dereferencing a
`null` match result (a `TypeError` at runtime); it aborts the whole
aggregation pass, so it is modelled as the error of an `Except`. -/
structure ParseError where
  line : String
deriving DecidableEq, Repr

/-- Match a literal character sequence at the head of the input and return
the remainder on success; this is how the regex engine treats the literal
parts of `MESSAGE_PATTERN`. -/
def dropLit : List Char → List Char → Option (List Char)
  | [], cs => some cs
  | _ :: _, [] => none
  | p :: ps, c :: cs => if c = p then dropLit ps cs else none

/-- JS `String.prototype.startsWith`. -/
def jsStartsWith (s pat : String) : Bool :=
  (dropLit pat.data s.data).isSome

/-- The character class `\s` of JS regexes and `trim`, restricted to the
ASCII whitespace characters (the tool output contains no exotic Unicode
whitespace, and every concrete input in this file is ASCII). -/
def isJsSpace (c : Char) : Bool :=
  c = ' ' || c = '\t' || c = '\n' || c = '\r' || c = '\x0b' || c = '\x0c'

/-- Value of a decimal digit string, as `Number` computes it for the
captured `\d+` group; digit strings are modelled exactly as naturals. -/
def digitsToNat (ds : List Char) : Nat :=
  ds.foldl (fun a c => a * 10 + (c.toNat - 48)) 0

/-- The optional trailing group `( \(Line (\d+)\))?` of `MESSAGE_PATTERN`,
applied to the text following the `\S+` token: it captures a number
exactly when the remaining text begins with a literal `" (Line "`, one or
more digits, and a closing parenthesis.  Backtracking into the preceding
greedy `\S+` can never help this group (it begins with a space, and `\S+`
only surrenders non-space characters), so on failure the group matches
empty and the capture is absent. -/
def matchLineSuffix (cs : List Char) : Option Nat :=
  match dropLit " (Line ".data cs with
  | none => none
  | some cs₁ =>
    let ds := cs₁.takeWhile Char.isDigit
    let cs₂ := cs₁.dropWhile Char.isDigit
    if ds.length = 0 then none
    else
      match cs₂ with
      | ')' :: _ => some (digitsToNat ds)
      | _ => none

/-- The alternation `(INFO|ERROR|WARNING) ` of `MESSAGE_PATTERN`
(each keyword is followed by a literal space; the alternatives start with
distinct letters, so first-match order is irrelevant). -/
def matchSeverity (cs : List Char) : Option (String × List Char) :=
  match dropLit "INFO ".data cs with
  | some rest => some ("INFO", rest)
  | none =>
    match dropLit "ERROR ".data cs with
    | some rest => some ("ERROR", rest)
    | none =>
      match dropLit "WARNING ".data cs with
      | some rest => some ("WARNING", rest)
      | none => none

/-- `line.match(MESSAGE_PATTERN)` for
`MESSAGE_PATTERN = /^\*\*\* (INFO|ERROR|WARNING) (M\d+): \S+( \(Line (\d+)\))?/`
(src/svdconv.ts line 13).  Returns the captured severity keyword
(group 1), the code token `M<digits>` (group 2), and the optional line
number (group 4).  The pattern has no end anchor, so trailing text after
the matched portion is ignored; the greedy `\S+` consumes the maximal
non-whitespace run after the `": "`, which is also its only possible
contribution to an overall match. -/
def messagePatternMatch (line : String) : Option (String × String × Option Nat) :=
  match dropLit "*** ".data line.data with
  | none => none
  | some cs =>
    match matchSeverity cs with
    | none => none
    | some (sev, cs₁) =>
      match dropLit "M".data cs₁ with
      | none => none
      | some cs₂ =>
        let ds := cs₂.takeWhile Char.isDigit
        let cs₃ := cs₂.dropWhile Char.isDigit
        if ds.length = 0 then none
        else
          match dropLit ": ".data cs₃ with
          | none => none
          | some cs₄ =>
            let w := cs₄.takeWhile (fun c => !(isJsSpace c))
            let cs₅ := cs₄.dropWhile (fun c => !(isJsSpace c))
            if w.length = 0 then none
            else some (sev, "M" ++ String.mk ds, matchLineSuffix cs₅)

/-- `match[1].toLowerCase()` for the matched severity keywords (they are
ASCII, so per-character lowering is exact). -/
def lowerAscii (s : String) : String :=
  String.mk (s.data.map Char.toLower)

/-- JS `String.prototype.trim`, over the modelled whitespace class. -/
def jsTrim (s : String) : String :=
  String.mk (((s.data.dropWhile isJsSpace).reverse.dropWhile isJsSpace).reverse)

/-- `Number(match[4])`: an absent capture (`undefined`) gives `NaN`; a
digit-string capture gives its numeric value. -/
def jsNumberOfCapture : Option Nat → JSNumber
  | none => JSNumber.nan
  | some n => JSNumber.num n

/-- JS `buffer.split("\n")`: split at every newline, keeping empty
pieces; the empty string yields one empty piece. -/
def splitNlChars : List Char → List (List Char)
  | [] => [[]]
  | c :: cs =>
    if c = '\n' then [] :: splitNlChars cs
    else
      match splitNlChars cs with
      | [] => [[c]]
      | l :: ls => (c :: l) :: ls

/-- String-level wrapper for `buffer.split("\n")`. -/
def jsSplitLines (s : String) : List String :=
  (splitNlChars s.data).map String.mk

/-- The stats increment in the `MESSAGE_LINE` branch of `parseMessage`
(src/svdconv.ts lines 74-80), keyed on the lowercased severity. -/
def bumpStats (s : Stats) (level : String) : Stats :=
  if level = "info" then { s with notes := s.notes + 1 }
  else if level = "error" then { s with errors := s.errors + 1 }
  else if level = "warning" then { s with warnings := s.warnings + 1 }
  else s

/-- The mutable instance state of `SVDConvParser`: the current
`ParserState`, the running `stats`, and the `_level`/`_code`/`_line`
fields captured from the last header.  In the source the latter three are
uninitialized until the first header is parsed, and they are only read in
the `DESCRIPTION_LINE` branch, which is reachable only after they were
written; the initial values below are therefore never observed. -/
structure ParserData where
  state : ParserState
  stats : Stats
  _level : String
  _code : String
  _line : JSNumber
deriving DecidableEq, Repr

/-- The parser state after the `SVDConvParser` constructor and the
`this.state = ParserState.NOISE` reset at the top of `parseMessages`. -/
def initialParserData : ParserData :=
  { state := ParserState.NOISE
    stats := { notes := 0, errors := 0, warnings := 0 }
    _level := ""
    _code := ""
    _line := JSNumber.nan }

/-- `SVDConvParser.parseMessage` (src/svdconv.ts lines 61-95), as an
explicit state transition.  A `null` regex match in the `MESSAGE_LINE`
branch throws (modelled as `Except.error`); otherwise the call returns
the emitted message (if any) and the updated instance state. -/
def parseMessage (d : ParserData) (line : String) :
    Except ParseError (Option Message × ParserData) :=
  let d₁ :=
    if d.state = ParserState.NOISE ∧ jsStartsWith line "***" = true then
      { d with state := ParserState.MESSAGE_LINE }
    else d
  if d₁.state = ParserState.MESSAGE_LINE then
    match messagePatternMatch line with
    | none => Except.error { line := line }
    | some (sev, code, lineCapture) =>
      let level := lowerAscii sev
      Except.ok (none,
        { state := ParserState.DESCRIPTION_LINE
          stats := bumpStats d₁.stats level
          _level := level
          _code := code
          _line := jsNumberOfCapture lineCapture })
  else if d₁.state = ParserState.DESCRIPTION_LINE then
    Except.ok (some { level := d₁._level, code := d₁._code, line := d₁._line,
                      message := jsTrim line },
               { d₁ with state := ParserState.NOISE })
  else
    Except.ok (none, d₁)

/-- `messages.get(key)` on the insertion-ordered map. -/
def mapGet (m : GroupedMessages) (k : JSNumber) : Option (List Message) :=
  match m with
  | [] => none
  | (k', v) :: rest => if k' = k then some v else mapGet rest k

/-- `messages.set(key, value)`: replaces in place if the key exists
(keeping its position), otherwise appends at the end (JS `Map` keeps the
original insertion position on overwrite). -/
def mapSet (m : GroupedMessages) (k : JSNumber) (v : List Message) :
    GroupedMessages :=
  match m with
  | [] => [(k, v)]
  | (k', v') :: rest =>
    if k' = k then (k, v) :: rest else (k', v') :: mapSet rest k v

/-- `messages.delete(key)`. -/
def mapDelete (m : GroupedMessages) (k : JSNumber) : GroupedMessages :=
  match m with
  | [] => []
  | (k', v') :: rest =>
    if k' = k then rest else (k', v') :: mapDelete rest k

/-- The per-message grouping step of `parseMessages` (src/svdconv.ts
lines 111-117): `ary = get(line) ?? []`, `if (ary.length == 0) set(line,
ary)`, `ary.push(message)`.  Because `set` stores the very array object
that `push` then mutates, the net effect in every case (absent key, key
with empty array, key with non-empty array) is that the map holds
`ary ++ [message]` at `message.line`, at the key's existing position or
appended as a fresh last key. -/
def insertMessage (m : GroupedMessages) (msg : Message) : GroupedMessages :=
  let ary := (mapGet m msg.line).getD []
  mapSet m msg.line (ary ++ [msg])

/-- The line loop of `SVDConvParser.parseMessages` (src/svdconv.ts
lines 107-119): feed each line to `parseMessage`, group every emitted
message, and thread the parser state; a parse exception propagates. -/
def runLines (d : ParserData) (m : GroupedMessages) :
    List String → Except ParseError (GroupedMessages × ParserData)
  | [] => Except.ok (m, d)
  | l :: ls =>
    match parseMessage d l with
    | Except.error e => Except.error e
    | Except.ok (none, d') => runLines d' m ls
    | Except.ok (some msg, d') => runLines d' (insertMessage m msg) ls

/-- `SVDConvParser.parseMessages` (src/svdconv.ts lines 97-122): reset the
state to `NOISE`, split the buffer at newlines with no special-casing,
run the line loop, and pair the grouped messages with the final stats
(the `result.stats` field aliases the parser's mutable `stats` object, so
it holds the final counters). -/
def parseMessages (buffer : String) : Except ParseError Result :=
  match runLines initialParserData [] (jsSplitLines buffer) with
  | Except.error e => Except.error e
  | Except.ok (m, d) => Except.ok { messages := m, stats := d.stats }

/-- The upload-ready record built by `getAnnotations` (src/main.ts
lines 67-88); the source field `annotation_level` is named `annot_level`
here. -/
structure Annot where
  path : String
  start_line : Nat
  end_line : Nat
  annot_level : String
  message : String
deriving DecidableEq, Repr

/-- One record pushed by `getAnnotations` from the current map key and the
popped message: `start_line = isNaN(key) ? 0 : key`, `end_line =
start_line`, the fixed severity if-chain, and the string
`msg.code + ": " + msg.message`. -/
def mkAnnot (svdPath : String) (key : JSNumber) (msg : Message) : Annot :=
  { path := svdPath
    start_line := match key with | JSNumber.nan => 0 | JSNumber.num n => n
    end_line := match key with | JSNumber.nan => 0 | JSNumber.num n => n
    annot_level :=
      if msg.level = "info" then "notice"
      else if msg.level = "warning" then "warning"
      else "error"
    message := msg.code ++ ": " ++ msg.message }

/-- Iteration bound for the `getAnnotations` while-loop: messages plus
keys.  Every loop iteration either pops one message or deletes one
emptied key, so it strictly decreases this measure. -/
def mapSize : GroupedMessages → Nat
  | [] => 0
  | (_, l) :: rest => l.length + 1 + mapSize rest

/-- Total number of messages held in the map. -/
def totalMsgs : GroupedMessages → Nat
  | [] => 0
  | (_, l) :: rest => l.length + totalMsgs rest

/-- The while-loop of `getAnnotations` (src/main.ts lines 60-97):
while fewer than 50 records are collected and the map is non-empty, take
the first key, `pop()` the last element of its array (an empty array pops
`undefined` and nothing is pushed), push the built record, and delete the
key if its array is now empty.  The loop is modelled with explicit fuel;
each iteration removes one message or one key, so fuel `mapSize m` makes
the fuel-exhausted fallback unreachable. -/
def getAnnotationsLoop (p : String) :
    Nat → List Annot → GroupedMessages → List Annot × GroupedMessages
  | _, acc, [] => (acc, [])
  | 0, acc, m => (acc, m)
  | fuel + 1, acc, (k, ary) :: rest =>
    if acc.length < 50 then
      match ary.getLast? with
      | some msg =>
        if ary.dropLast.length = 0 then
          getAnnotationsLoop p fuel (acc ++ [mkAnnot p k msg]) rest
        else
          getAnnotationsLoop p fuel (acc ++ [mkAnnot p k msg])
            ((k, ary.dropLast) :: rest)
      | none => getAnnotationsLoop p fuel acc rest
    else (acc, (k, ary) :: rest)

/-- `getAnnotations` (src/main.ts lines 55-100): one destructive batch of
at most 50 records drained from the map, or `null` (here `none`) when no
record was produced.  The first component is the returned value; the
second is the map as mutated in place. -/
def getAnnotations (p : String) (m : GroupedMessages) :
    Option (List Annot) × GroupedMessages :=
  let r := getAnnotationsLoop p (mapSize m) [] m
  (if r.1.length = 0 then none else some r.1, r.2)

/-- The map mutation performed by one `getAnnotations` call, used to state
what repeated calls do to the shared map. -/
def applyBatch (p : String) (m : GroupedMessages) : GroupedMessages :=
  (getAnnotations p m).2

/-- `SVDConv.run` (src/svdconv.ts lines 143-172) after the tool
invocation, taking the captured stdout and stderr as inputs: any
non-empty stderr short-circuits to `null` before parsing is reached;
otherwise the stdout buffer is parsed and the result returned (a parse
exception propagates). -/
def runModel (stdout stderr : String) : Except ParseError (Option Result) :=
  if stderr ≠ "" then Except.ok none
  else
    match parseMessages stdout with
    | Except.error e => Except.error e
    | Except.ok r => Except.ok (some r)

/-- Observable outcome of one action run (src/main.ts `main`):
the result `run` produced, whether `uploadResult` was invoked (it is the
only caller of `checks.create`, so it marks check-run creation), and
whether `core.setFailed` was invoked after the tool ran. -/
structure MainTrace where
  result : Option Result
  checkRunCreated : Bool
  failureReported : Bool
deriving DecidableEq, Repr

/-- The post-invocation control flow of `main` (src/main.ts
lines 189-216): `uploadResult` runs exactly when `run` returned a truthy
result; no path after the tool invocation calls `core.setFailed`, so
`failureReported` is `false` whenever `main` completes; a parse exception
escapes `main` uncaught (modelled as the `Except` error). -/
def mainModel (stdout stderr : String) : Except ParseError MainTrace :=
  match runModel stdout stderr with
  | Except.error e => Except.error e
  | Except.ok none =>
    Except.ok { result := none, checkRunCreated := false, failureReported := false }
  | Except.ok (some r) =>
    Except.ok { result := some r, checkRunCreated := true, failureReported := false }

/-- Reference count of header lines, following the spec's description of
the scan: walking the lines with a one-bit state, a line is counted for
its severity when it matches the header pattern and is not the immediate
successor of a counted header line (that successor is consumed as a
description, even if it is itself a header line). -/
def scanStats (skip : Bool) (s : Stats) : List String → Stats
  | [] => s
  | l :: ls =>
    if skip then scanStats false s ls
    else
      match messagePatternMatch l with
      | some (sev, _, _) => scanStats true (bumpStats s (lowerAscii sev)) ls
      | none => scanStats false s ls

/-- The Grouped Messages invariant: every key maps to a non-empty
sequence. -/
def Invariant (m : GroupedMessages) : Prop :=
  ∀ e ∈ m, e.2 ≠ []

instance (m : GroupedMessages) : Decidable (Invariant m) :=
  List.decidableBAll _ m

/-- Number of lines anywhere in the given line list that match the header
pattern with the given severity keyword; this is the count the spec's
stats sentence refers to ("header lines ... occurring anywhere in the
buffer"). -/
def headerLinesCount (sev : String) (ls : List String) : Nat :=
  (ls.filter (fun l =>
    match messagePatternMatch l with
    | some (s, _, _) => s = sev
    | none => false)).length

deriving instance DecidableEq for Except

/-- Sample message used by concrete witnesses. -/
def exMsg : Message :=
  { level := "warning", code := "M305", line := JSNumber.num 12, message := "w" }

/-- Sample one-key map used by concrete witnesses. -/
def exMap : GroupedMessages :=
  [(JSNumber.num 3, [exMsg])]

/-- Sample two-message map used by the batcher witness. -/
def exMap2 : GroupedMessages :=
  [(JSNumber.num 1,
    [{ level := "info", code := "M1", line := JSNumber.num 1, message := "a" },
     { level := "error", code := "M2", line := JSNumber.num 1, message := "b" }])]

/-! ### Helper lemmas about the parser -/

theorem dropLit_append (ps qs cs : List Char) :
    dropLit (ps ++ qs) cs = (dropLit ps cs).bind (dropLit qs) := by
  induction ps generalizing cs with
  | nil => simp [dropLit]
  | cons p ps ih =>
    cases cs with
    | nil => simp [dropLit]
    | cons c cs =>
      simp only [List.cons_append, dropLit]
      by_cases h : c = p
      · simp [h, ih]
      · simp [h]

/-- A successful header match implies the `startsWith("***")` guard of
`parseMessage` also succeeds: the pattern begins with the same marker. -/
theorem startsWith_of_match {l : String} {r : String × String × Option Nat}
    (h : messagePatternMatch l = some r) : jsStartsWith l "***" = true := by
  unfold messagePatternMatch at h
  cases hd : dropLit "*** ".data l.data with
  | none => rw [hd] at h; exact absurd h (by simp)
  | some cs =>
    have hsplit : "*** ".data = "***".data ++ " ".data := by decide
    rw [hsplit, dropLit_append] at hd
    rcases Option.bind_eq_some.mp hd with ⟨cs₀, h₀, _⟩
    simp [jsStartsWith, h₀]

/-- `parseMessage` from `NOISE` on a line the header pattern matches:
states transition to `DESCRIPTION_LINE`, the captures are saved, the
stats counter for the lowercased severity is incremented, and nothing is
emitted. -/
theorem parseMessage_noise_marker_match {d : ParserData} {l : String}
    {sev code : String} {cap : Option Nat}
    (hd : d.state = ParserState.NOISE)
    (hm : messagePatternMatch l = some (sev, code, cap)) :
    parseMessage d l =
      Except.ok (none,
        { state := ParserState.DESCRIPTION_LINE
          stats := bumpStats d.stats (lowerAscii sev)
          _level := lowerAscii sev
          _code := code
          _line := jsNumberOfCapture cap }) := by
  have hs : jsStartsWith l "***" = true := startsWith_of_match hm
  simp [parseMessage, hd, hs, hm]

/-- `parseMessage` from `NOISE` on a non-marker line is a no-op. -/
theorem parseMessage_noise_nonmarker {d : ParserData} {l : String}
    (hd : d.state = ParserState.NOISE)
    (hs : jsStartsWith l "***" = false) :
    parseMessage d l = Except.ok (none, d) := by
  simp [parseMessage, hd, hs]

/-- `parseMessage` from `NOISE` on a marker line the pattern rejects
throws (the `null` match is dereferenced). -/
theorem parseMessage_noise_marker_bad {d : ParserData} {l : String}
    (hd : d.state = ParserState.NOISE)
    (hs : jsStartsWith l "***" = true)
    (hm : messagePatternMatch l = none) :
    parseMessage d l = Except.error { line := l } := by
  simp [parseMessage, hd, hs, hm]

/-- `parseMessage` in `DESCRIPTION_LINE` state consumes any line
whatsoever as the description and emits the pending message. -/
theorem parseMessage_description {d : ParserData} {l : String}
    (hd : d.state = ParserState.DESCRIPTION_LINE) :
    parseMessage d l =
      Except.ok (some { level := d._level, code := d._code, line := d._line,
                        message := jsTrim l },
                 { d with state := ParserState.NOISE }) := by
  have hne : d.state ≠ ParserState.NOISE := by rw [hd]; intro hc; cases hc
  simp [parseMessage, hd, hne]

theorem runLines_append (d : ParserData) (m : GroupedMessages)
    (ls₁ ls₂ : List String) :
    runLines d m (ls₁ ++ ls₂) =
      match runLines d m ls₁ with
      | Except.error e => Except.error e
      | Except.ok (m', d') => runLines d' m' ls₂ := by
  induction ls₁ generalizing d m with
  | nil => simp [runLines]
  | cons l ls ih =>
    simp only [List.cons_append, runLines]
    cases parseMessage d l with
    | error e => rfl
    | ok v =>
      obtain ⟨om, d'⟩ := v
      cases om <;> simp [ih]

/-! ### Claim theorems -/

/-- Claim C2 (code_bug evaluation): the header pattern's greedy `\S+`
consumes only the first whitespace-free token of the free text, so for a
header whose free text has more than one token the optional
`(Line N)` group captures nothing even though the suffix is present in
the text, and the emitted Message carries `NaN` (annotations then land at
line 0) instead of the suffix number N asserted by the claim and by the
spec's own example scenario.  With a single-token free text the capture
works as claimed. -/
theorem claim2_code_evaluation :
    parseMessages "*** WARNING M305: Field FOO (Line 12)\ndesc" =
      Except.ok
        { messages := [(JSNumber.nan,
            [{ level := "warning", code := "M305", line := JSNumber.nan,
               message := "desc" }])],
          stats := { notes := 0, errors := 0, warnings := 1 } } ∧
    parseMessages "*** WARNING M305: FOO (Line 12)\ndesc" =
      Except.ok
        { messages := [(JSNumber.num 12,
            [{ level := "warning", code := "M305", line := JSNumber.num 12,
               message := "desc" }])],
          stats := { notes := 0, errors := 0, warnings := 1 } } := by
  exact ⟨rfl, rfl⟩

/-- Claim C4 (counterexample): on a header immediately followed by
another header, a Message for the FIRST header is emitted after all (the
claim says it never is), carrying the second header line verbatim as its
description, and the second header is not processed as a header (the
WARNING counter stays 0). -/
theorem claim4_counterexample :
    parseMessages "*** INFO M1: a\n*** WARNING M2: b" =
      Except.ok
        { messages := [(JSNumber.nan,
            [{ level := "info", code := "M1", line := JSNumber.nan,
               message := "*** WARNING M2: b" }])],
          stats := { notes := 1, errors := 0, warnings := 0 } } := by
  exact rfl

/-- Claim C4 (amended): a header line immediately followed by another
header line causes the first header's Message to be emitted with the
second header line (trimmed) as its message text; the second header line
is consumed as a description line and is not processed as a header: no
stats counter is incremented for it and the parser returns to `NOISE`. -/
theorem claim4_consecutive_headers (d : ParserData) (h₁ h₂ : String)
    (sev₁ code₁ : String) (cap₁ : Option Nat)
    (r₂ : String × String × Option Nat)
    (hd : d.state = ParserState.NOISE)
    (hm₁ : messagePatternMatch h₁ = some (sev₁, code₁, cap₁))
    (hm₂ : messagePatternMatch h₂ = some r₂) :
    ∃ d₁, parseMessage d h₁ = Except.ok (none, d₁) ∧
      parseMessage d₁ h₂ =
        Except.ok (some { level := lowerAscii sev₁, code := code₁,
                          line := jsNumberOfCapture cap₁,
                          message := jsTrim h₂ },
                   { d₁ with state := ParserState.NOISE }) := by
  exact ⟨_, parseMessage_noise_marker_match hd hm₁, parseMessage_description rfl⟩

/-- Claim C4 witness: the amended behaviour at a concrete pair of
consecutive headers. -/
theorem claim4_consecutive_headers_witness :
    ∃ d₁, parseMessage initialParserData "*** INFO M1: a" = Except.ok (none, d₁) ∧
      parseMessage d₁ "*** WARNING M2: b" =
        Except.ok (some { level := lowerAscii "INFO", code := "M1",
                          line := jsNumberOfCapture none,
                          message := jsTrim "*** WARNING M2: b" },
                   { d₁ with state := ParserState.NOISE }) := by
  exact claim4_consecutive_headers initialParserData "*** INFO M1: a"
    "*** WARNING M2: b" "INFO" "M1" none ("WARNING", "M2", none) rfl
    (by decide) (by decide)

/-- Claim C5 (counterexample): a header with no `(Line N)` suffix yields
a Message whose `line` is the `NaN` sentinel (`Number(undefined)`), not
the claimed 0. -/
theorem claim5_counterexample :
    parseMessages "*** INFO M1: x\nd" =
      Except.ok
        { messages := [(JSNumber.nan,
            [{ level := "info", code := "M1", line := JSNumber.nan,
               message := "d" }])],
          stats := { notes := 1, errors := 0, warnings := 0 } } ∧
    JSNumber.nan ≠ JSNumber.num 0 := by
  exact ⟨rfl, by decide⟩

/-- Claim C5 (amended): for a header line whose optional `(Line N)`
suffix is not captured, the saved line and the emitted Message's `line`
are `NaN` (not 0); the annotation built from the `NaN` map key normalizes
it to `start_line = end_line = 0` via the `isNaN(key)` check. -/
theorem claim5_absent_line_suffix :
    (∀ (d : ParserData) (h : String) (sev code : String),
      d.state = ParserState.NOISE →
      messagePatternMatch h = some (sev, code, none) →
      ∀ desc : String,
        ∃ d₁, parseMessage d h = Except.ok (none, d₁) ∧
          d₁._line = JSNumber.nan ∧
          parseMessage d₁ desc =
            Except.ok (some { level := lowerAscii sev, code := code,
                              line := JSNumber.nan, message := jsTrim desc },
                       { d₁ with state := ParserState.NOISE })) ∧
    (∀ (p : String) (msg : Message),
      (mkAnnot p JSNumber.nan msg).start_line = 0 ∧
      (mkAnnot p JSNumber.nan msg).end_line = 0) := by
  refine ⟨?_, fun p msg => ⟨rfl, rfl⟩⟩
  intro d h sev code hd hm desc
  exact ⟨_, parseMessage_noise_marker_match hd hm, rfl, parseMessage_description rfl⟩

/-- Claim C5 witness: the amended behaviour at a concrete suffix-less
header and description. -/
theorem claim5_absent_line_suffix_witness :
    (∃ d₁, parseMessage initialParserData "*** INFO M1: x" = Except.ok (none, d₁) ∧
      d₁._line = JSNumber.nan ∧
      parseMessage d₁ "d" =
        Except.ok (some { level := lowerAscii "INFO", code := "M1",
                          line := JSNumber.nan, message := jsTrim "d" },
                   { d₁ with state := ParserState.NOISE })) ∧
    (mkAnnot "f.svd" JSNumber.nan exMsg).start_line = 0 := by
  exact ⟨claim5_absent_line_suffix.1 initialParserData "*** INFO M1: x" "INFO" "M1"
      rfl (by decide) "d",
    (claim5_absent_line_suffix.2 "f.svd" exMsg).1⟩

/-- Claim C7 (counterexample): with non-empty stderr the run yields no
Result and no check run, but contrary to the claim no failure is
reported upward: `main` completes normally with `failureReported = false`
(no `core.setFailed` call exists on this path).  The stdout chosen here
would raise a parse error if parsed, so the `Except.ok` outcome also
shows parsing is skipped. -/
theorem claim7_counterexample :
    runModel "*** bogus" "boom" = Except.ok none ∧
    mainModel "*** bogus" "boom" =
      Except.ok { result := none, checkRunCreated := false,
                  failureReported := false } := by
  exact ⟨rfl, rfl⟩

/-- Claim C7 (amended): for every tool invocation with non-empty stderr,
`run` yields no Result (parsing is skipped entirely) and no check run is
created; however the step does not report failure upward — `main`
completes with `failureReported = false`. -/
theorem claim7_stderr_behavior (stdout stderr : String) (h : stderr ≠ "") :
    runModel stdout stderr = Except.ok none ∧
    mainModel stdout stderr =
      Except.ok { result := none, checkRunCreated := false,
                  failureReported := false } := by
  have h1 : runModel stdout stderr = Except.ok none := by simp [runModel, h]
  exact ⟨h1, by simp [mainModel, h1]⟩

/-- Claim C7 witness: the amended behaviour at a concrete invocation. -/
theorem claim7_stderr_behavior_witness :
    runModel "out" "boom" = Except.ok none ∧
    mainModel "out" "boom" =
      Except.ok { result := none, checkRunCreated := false,
                  failureReported := false } := by
  exact claim7_stderr_behavior "out" "boom" (by decide)

/-- Claim C8: a line that begins with the `***` marker but does not match
the full header pattern makes the parser raise (the `null` match result
is dereferenced), the error aborts the whole aggregation pass with no
partial result, and `main` then propagates the exception before any
upload: `mainModel` yields no trace at all. -/
theorem claim8_malformed_header_fatal :
    (∀ (d : ParserData) (line : String),
      d.state = ParserState.NOISE → jsStartsWith line "***" = true →
      messagePatternMatch line = none →
      parseMessage d line = Except.error { line := line }) ∧
    (∀ (line : String) (ls : List String),
      jsStartsWith line "***" = true → messagePatternMatch line = none →
      runLines initialParserData [] (line :: ls) = Except.error { line := line }) ∧
    (∀ (stdout : String) (e : ParseError),
      parseMessages stdout = Except.error e →
      mainModel stdout "" = Except.error e) := by
  refine ⟨fun d line hd hs hm => parseMessage_noise_marker_bad hd hs hm, ?_, ?_⟩
  · intro line ls hs hm
    have hstep := @parseMessage_noise_marker_bad initialParserData line rfl hs hm
    simp [runLines, hstep]
  · intro so e h
    simp [mainModel, runModel, h]

/-- Claim C8 witness: the fatal malformed-marker behaviour at a concrete
line and buffer. -/
theorem claim8_malformed_header_fatal_witness :
    parseMessage initialParserData "*** bogus" =
      Except.error { line := "*** bogus" } ∧
    runLines initialParserData [] ["*** bogus"] =
      Except.error { line := "*** bogus" } ∧
    mainModel "*** bogus" "" = Except.error { line := "*** bogus" } := by
  exact ⟨claim8_malformed_header_fatal.1 initialParserData "*** bogus" rfl
      (by decide) (by decide),
    claim8_malformed_header_fatal.2.1 "*** bogus" [] (by decide) (by decide),
    claim8_malformed_header_fatal.2.2 "*** bogus" { line := "*** bogus" }
      (by decide)⟩

/-- The parser's stats counters, viewed through the two-state scan:
starting from a state that is `NOISE` or `DESCRIPTION_LINE`, a successful
run of the line loop produces exactly the scan count accumulated onto the
starting stats (the `MESSAGE_LINE` state never persists across lines). -/
theorem runLines_stats_scan (ls : List String) :
    ∀ (d : ParserData) (m m' : GroupedMessages) (d' : ParserData),
      (d.state = ParserState.NOISE ∨ d.state = ParserState.DESCRIPTION_LINE) →
      runLines d m ls = Except.ok (m', d') →
      d'.stats =
        scanStats (if d.state = ParserState.DESCRIPTION_LINE then true else false)
          d.stats ls := by
  induction ls with
  | nil =>
    intro d m m' d' hok h
    simp only [runLines, Except.ok.injEq, Prod.mk.injEq] at h
    obtain ⟨rfl, rfl⟩ := h
    simp [scanStats]
  | cons l ls ih =>
    intro d m m' d' hok h
    simp only [runLines] at h
    rcases hok with hd | hd
    · by_cases hs : jsStartsWith l "***" = true
      · cases hm : messagePatternMatch l with
        | none =>
          rw [parseMessage_noise_marker_bad hd hs hm] at h
          exact absurd h (by simp)
        | some r =>
          obtain ⟨sev, code, cap⟩ := r
          rw [parseMessage_noise_marker_match hd hm] at h
          have ihh := ih _ m m' d' (Or.inr rfl) h
          rw [hd]
          simp only [scanStats, hm]
          simpa using ihh
      · have hs' : jsStartsWith l "***" = false := by simpa using hs
        rw [parseMessage_noise_nonmarker hd hs'] at h
        have ihh := ih d m m' d' (Or.inl hd) h
        have hmn : messagePatternMatch l = none := by
          cases hmm : messagePatternMatch l with
          | none => rfl
          | some r => exact absurd (startsWith_of_match hmm) (by simp [hs'])
        rw [hd] at ihh ⊢
        simp only [scanStats, hmn]
        simpa using ihh
    · rw [parseMessage_description hd] at h
      have ihh := ih { d with state := ParserState.NOISE } _ m' d' (Or.inl rfl) h
      rw [hd]
      simp only [scanStats]
      simpa using ihh

/-- Claim C3 (counterexample): a buffer with two consecutive INFO header
lines contains two INFO headers, but the final `notes` counter is 1: the
second header line is consumed as the first header's description line and
never increments the stats. -/
theorem claim3_counterexample :
    (parseMessages "*** INFO M1: a\n*** INFO M2: b").map Result.stats =
      Except.ok { notes := 1, errors := 0, warnings := 0 } ∧
    headerLinesCount "INFO" (jsSplitLines "*** INFO M1: a\n*** INFO M2: b") = 2 := by
  exact ⟨rfl, rfl⟩

/-- Claim C3 (amended): the final Stats counters equal the per-severity
counts of the header lines the two-state scan recognizes as headers — a
header line consumed as the description of the immediately preceding
header does not count, while a dangling final header does. -/
theorem claim3_stats_scan (buffer : String) (r : Result)
    (h : parseMessages buffer = Except.ok r) :
    r.stats = scanStats false { notes := 0, errors := 0, warnings := 0 }
      (jsSplitLines buffer) := by
  unfold parseMessages at h
  cases hr : runLines initialParserData [] (jsSplitLines buffer) with
  | error e => rw [hr] at h; exact absurd h (by simp)
  | ok md =>
    obtain ⟨m, d⟩ := md
    rw [hr] at h
    simp only [Except.ok.injEq] at h
    subst h
    have hscan := runLines_stats_scan (jsSplitLines buffer) initialParserData
      [] m d (Or.inl rfl) hr
    simpa using hscan

/-- Claim C3 witness: the amended stats law at a concrete buffer with a
single complete block. -/
theorem claim3_stats_scan_witness :
    ({ notes := 1, errors := 0, warnings := 0 } : Stats) =
      scanStats false { notes := 0, errors := 0, warnings := 0 }
        (jsSplitLines "*** INFO M1: a\nd") := by
  exact claim3_stats_scan "*** INFO M1: a\nd"
    { messages := [(JSNumber.nan,
        [{ level := "info", code := "M1", line := JSNumber.nan,
           message := "d" }])],
      stats := { notes := 1, errors := 0, warnings := 0 } } (by decide)

/-- Claim C9: a final header line with no following line before
end-of-input is silently dropped — appending a matching header to any
successfully parsed line list leaves the grouped messages unchanged (no
Message is emitted for it) while the run still succeeds, with the parser
left expecting a description and the header's stats increment applied;
and `parseMessages` feeds the line loop exactly `buffer.split("\n")`,
with no trailing-newline special-casing. -/
theorem claim9_dangling_header :
    (∀ buffer : String,
      parseMessages buffer =
        Except.map (fun md => { messages := md.1, stats := md.2.stats })
          (runLines initialParserData [] (jsSplitLines buffer))) ∧
    (∀ (ls : List String) (m : GroupedMessages) (d : ParserData)
        (h : String) (sev code : String) (cap : Option Nat),
      runLines initialParserData [] ls = Except.ok (m, d) →
      d.state = ParserState.NOISE →
      messagePatternMatch h = some (sev, code, cap) →
      ∃ d', runLines initialParserData [] (ls ++ [h]) = Except.ok (m, d') ∧
        d'.state = ParserState.DESCRIPTION_LINE ∧
        d'.stats = bumpStats d.stats (lowerAscii sev)) := by
  constructor
  · intro buffer
    unfold parseMessages
    cases hr : runLines initialParserData [] (jsSplitLines buffer) with
    | error e => rfl
    | ok md => obtain ⟨m, d⟩ := md; rfl
  · intro ls m d h sev code cap hrun hd hm
    refine ⟨{ state := ParserState.DESCRIPTION_LINE
              stats := bumpStats d.stats (lowerAscii sev)
              _level := lowerAscii sev
              _code := code
              _line := jsNumberOfCapture cap }, ?_, rfl, rfl⟩
    rw [runLines_append, hrun]
    have hstep := parseMessage_noise_marker_match hd hm
    simp [runLines, hstep]

/-- Claim C9 witness: the dangling-header behaviour at a concrete line
list ending in a header. -/
theorem claim9_dangling_header_witness :
    ∃ d', runLines initialParserData [] (["noise"] ++ ["*** INFO M1: x"]) =
        Except.ok ([], d') ∧
      d'.state = ParserState.DESCRIPTION_LINE ∧
      d'.stats = bumpStats initialParserData.stats (lowerAscii "INFO") := by
  exact claim9_dangling_header.2 ["noise"] [] initialParserData "*** INFO M1: x"
    "INFO" "M1" none (by decide) rfl (by decide)

/-! ### Helper lemmas about the grouped-message map and the batcher -/

theorem mapSet_invariant :
    ∀ (m : GroupedMessages) (k : JSNumber) (v : List Message),
      Invariant m → v ≠ [] → Invariant (mapSet m k v) := by
  intro m
  induction m with
  | nil =>
    intro k v hinv hv e he
    simp only [mapSet, List.mem_singleton] at he
    subst he
    exact hv
  | cons e' rest ih =>
    obtain ⟨k', v'⟩ := e'
    intro k v hinv hv e he
    have hrest : Invariant rest := fun x hx => hinv x (List.mem_cons_of_mem _ hx)
    by_cases hk : k' = k
    · simp only [mapSet, if_pos hk, List.mem_cons] at he
      rcases he with rfl | he
      · exact hv
      · exact hrest e he
    · simp only [mapSet, if_neg hk, List.mem_cons] at he
      rcases he with rfl | he
      · exact hinv _ (List.mem_cons_self _ _)
      · exact ih k v hrest hv e he

theorem insertMessage_invariant {m : GroupedMessages} (msg : Message)
    (hinv : Invariant m) : Invariant (insertMessage m msg) := by
  unfold insertMessage
  exact mapSet_invariant m msg.line _ hinv (by simp)

theorem runLines_invariant :
    ∀ (ls : List String) (d : ParserData) (m m' : GroupedMessages)
      (d' : ParserData),
      Invariant m → runLines d m ls = Except.ok (m', d') → Invariant m' := by
  intro ls
  induction ls with
  | nil =>
    intro d m m' d' hinv h
    simp only [runLines, Except.ok.injEq, Prod.mk.injEq] at h
    obtain ⟨rfl, rfl⟩ := h
    exact hinv
  | cons l ls ih =>
    intro d m m' d' hinv h
    simp only [runLines] at h
    cases hp : parseMessage d l with
    | error e => rw [hp] at h; exact absurd h (by simp)
    | ok v =>
      obtain ⟨om, d₁⟩ := v
      rw [hp] at h
      cases om with
      | none => exact ih d₁ m m' d' hinv h
      | some msg => exact ih d₁ _ m' d' (insertMessage_invariant msg hinv) h

/-- The batching loop, quantitatively: starting under budget, it collects
exactly `min (50 - acc.length) (totalMsgs m)` new records, leaves exactly
`totalMsgs m - (50 - acc.length)` messages in the map, and preserves the
non-empty-values invariant; the fuel hypothesis mirrors the termination
argument for the JS while-loop. -/
theorem getAnnotationsLoop_spec (p : String) :
    ∀ (fuel : Nat) (m : GroupedMessages) (acc : List Annot),
      mapSize m ≤ fuel → acc.length ≤ 50 → Invariant m →
      (getAnnotationsLoop p fuel acc m).1.length
          = acc.length + min (50 - acc.length) (totalMsgs m) ∧
      totalMsgs (getAnnotationsLoop p fuel acc m).2
          = totalMsgs m - (50 - acc.length) ∧
      Invariant (getAnnotationsLoop p fuel acc m).2 := by
  intro fuel
  induction fuel with
  | zero =>
    intro m acc hsz h50 hinv
    cases m with
    | nil => simp [getAnnotationsLoop, totalMsgs, Invariant]
    | cons e rest =>
      obtain ⟨k, ary⟩ := e
      simp [mapSize] at hsz
  | succ fuel ih =>
    intro m acc hsz h50 hinv
    cases m with
    | nil => simp [getAnnotationsLoop, totalMsgs, Invariant]
    | cons e rest =>
      obtain ⟨k, ary⟩ := e
      have hne : ary ≠ [] := hinv (k, ary) (List.mem_cons_self _ _)
      have hlen : 0 < ary.length := List.length_pos.mpr hne
      have hlast : ary.getLast? = some (ary.getLast hne) :=
        List.getLast?_eq_getLast_of_ne_nil hne
      have hrest : Invariant rest := fun x hx => hinv x (List.mem_cons_of_mem _ hx)
      have hszrest : mapSize rest ≤ fuel := by simp [mapSize] at hsz; omega
      have hdl : ary.dropLast.length = ary.length - 1 := List.length_dropLast ary
      by_cases hacc : acc.length < 50
      · by_cases hdrop : ary.dropLast.length = 0
        · have hlen1 : ary.length = 1 := by omega
          have key : getAnnotationsLoop p (fuel + 1) acc ((k, ary) :: rest)
              = getAnnotationsLoop p fuel
                  (acc ++ [mkAnnot p k (ary.getLast hne)]) rest := by
            rw [getAnnotationsLoop, if_pos hacc, hlast]
            dsimp only
            rw [if_pos hdrop]
          obtain ⟨e1, e2, e3⟩ := ih rest (acc ++ [mkAnnot p k (ary.getLast hne)])
            hszrest (by simp; omega) hrest
          rw [key]
          refine ⟨?_, ?_, e3⟩
          · rw [e1]; simp only [List.length_append, List.length_singleton,
              totalMsgs]; omega
          · rw [e2]; simp only [List.length_append, List.length_singleton,
              totalMsgs]; omega
        · have key : getAnnotationsLoop p (fuel + 1) acc ((k, ary) :: rest)
              = getAnnotationsLoop p fuel
                  (acc ++ [mkAnnot p k (ary.getLast hne)])
                  ((k, ary.dropLast) :: rest) := by
            rw [getAnnotationsLoop, if_pos hacc, hlast]
            dsimp only
            rw [if_neg hdrop]
          have hinv' : Invariant ((k, ary.dropLast) :: rest) := by
            intro x hx
            rcases List.mem_cons.mp hx with rfl | hx'
            · intro hc
              have hc' : ary.dropLast = [] := hc
              exact hdrop (by rw [hc']; rfl)
            · exact hrest x hx'
          have hsz' : mapSize ((k, ary.dropLast) :: rest) ≤ fuel := by
            simp only [mapSize, hdl] at hsz ⊢
            omega
          obtain ⟨e1, e2, e3⟩ := ih ((k, ary.dropLast) :: rest)
            (acc ++ [mkAnnot p k (ary.getLast hne)]) hsz' (by simp; omega) hinv'
          rw [key]
          refine ⟨?_, ?_, e3⟩
          · rw [e1]; simp only [List.length_append, List.length_singleton,
              totalMsgs, hdl]; omega
          · rw [e2]; simp only [List.length_append, List.length_singleton,
              totalMsgs, hdl]; omega
      · have key : getAnnotationsLoop p (fuel + 1) acc ((k, ary) :: rest)
            = (acc, (k, ary) :: rest) := by
          rw [getAnnotationsLoop, if_neg hacc]
        rw [key]
        refine ⟨by simp; omega, by simp; omega, hinv⟩

/-- Every record a batching-loop run returns either was in the
accumulator already or is built by `mkAnnot` from a key of the map and a
message stored under that key. -/
theorem getAnnotationsLoop_mem (p : String) :
    ∀ (fuel : Nat) (m : GroupedMessages) (acc : List Annot) (a : Annot),
      a ∈ (getAnnotationsLoop p fuel acc m).1 →
      a ∈ acc ∨ ∃ k l msg, (k, l) ∈ m ∧ msg ∈ l ∧ a = mkAnnot p k msg := by
  intro fuel
  induction fuel with
  | zero =>
    intro m acc a ha
    cases m with
    | nil => exact Or.inl ha
    | cons e rest => exact Or.inl ha
  | succ fuel ih =>
    intro m acc a ha
    cases m with
    | nil => exact Or.inl ha
    | cons e rest =>
      obtain ⟨k, ary⟩ := e
      by_cases hacc : acc.length < 50
      · cases hl : ary.getLast? with
        | none =>
          have key : getAnnotationsLoop p (fuel + 1) acc ((k, ary) :: rest)
              = getAnnotationsLoop p fuel acc rest := by
            rw [getAnnotationsLoop, if_pos hacc, hl]
          rw [key] at ha
          rcases ih rest acc a ha with h | ⟨k', l', msg', hin, hmsg, rfl⟩
          · exact Or.inl h
          · exact Or.inr ⟨k', l', msg', List.mem_cons_of_mem _ hin, hmsg, rfl⟩
        | some msg =>
          have hne : ary ≠ [] := by
            intro hcon
            rw [hcon] at hl
            exact absurd hl (by simp)
          have hmem : msg ∈ ary := by
            rw [List.getLast?_eq_getLast_of_ne_nil hne] at hl
            injection hl with h'
            rw [← h']
            exact List.getLast_mem hne
          by_cases hdrop : ary.dropLast.length = 0
          · have key : getAnnotationsLoop p (fuel + 1) acc ((k, ary) :: rest)
                = getAnnotationsLoop p fuel (acc ++ [mkAnnot p k msg]) rest := by
              rw [getAnnotationsLoop, if_pos hacc, hl]
              dsimp only
              rw [if_pos hdrop]
            rw [key] at ha
            rcases ih rest (acc ++ [mkAnnot p k msg]) a ha with
              h | ⟨k', l', msg', hin, hmsg, rfl⟩
            · rcases List.mem_append.mp h with h' | h'
              · exact Or.inl h'
              · have ha' : a = mkAnnot p k msg := by simpa using h'
                exact Or.inr ⟨k, ary, msg, List.mem_cons_self _ _, hmem, ha'⟩
            · exact Or.inr ⟨k', l', msg', List.mem_cons_of_mem _ hin, hmsg, rfl⟩
          · have key : getAnnotationsLoop p (fuel + 1) acc ((k, ary) :: rest)
                = getAnnotationsLoop p fuel (acc ++ [mkAnnot p k msg])
                    ((k, ary.dropLast) :: rest) := by
              rw [getAnnotationsLoop, if_pos hacc, hl]
              dsimp only
              rw [if_neg hdrop]
            rw [key] at ha
            rcases ih ((k, ary.dropLast) :: rest) (acc ++ [mkAnnot p k msg]) a ha
              with h | ⟨k', l', msg', hin, hmsg, rfl⟩
            · rcases List.mem_append.mp h with h' | h'
              · exact Or.inl h'
              · have ha' : a = mkAnnot p k msg := by simpa using h'
                exact Or.inr ⟨k, ary, msg, List.mem_cons_self _ _, hmem, ha'⟩
            · rcases List.mem_cons.mp hin with heq | hin'
              · cases heq
                exact Or.inr ⟨k, ary, msg', List.mem_cons_self _ _,
                  List.mem_of_mem_dropLast hmsg, rfl⟩
              · exact Or.inr ⟨k', l', msg', List.mem_cons_of_mem _ hin', hmsg, rfl⟩
      · have key : getAnnotationsLoop p (fuel + 1) acc ((k, ary) :: rest)
            = (acc, (k, ary) :: rest) := by
          rw [getAnnotationsLoop, if_neg hacc]
        rw [key] at ha
        exact Or.inl ha

theorem invariant_totalMsgs_eq_zero {m : GroupedMessages} (hinv : Invariant m) :
    totalMsgs m = 0 ↔ m = [] := by
  cases m with
  | nil => simp [totalMsgs]
  | cons e rest =>
    obtain ⟨k, ary⟩ := e
    have hne : ary ≠ [] := hinv (k, ary) (List.mem_cons_self _ _)
    have hlen : 0 < ary.length := List.length_pos.mpr hne
    simp only [totalMsgs]
    exact ⟨fun h => absurd h (by omega), fun h => by simp at h⟩

theorem getAnnotations_fst (p : String) (m : GroupedMessages) :
    (getAnnotations p m).1 =
      (if (getAnnotationsLoop p (mapSize m) [] m).1.length = 0 then none
       else some (getAnnotationsLoop p (mapSize m) [] m).1) := rfl

theorem applyBatch_spec (p : String) {m : GroupedMessages}
    (hinv : Invariant m) :
    totalMsgs (applyBatch p m) = totalMsgs m - 50 ∧
    Invariant (applyBatch p m) := by
  obtain ⟨e1, e2, e3⟩ := getAnnotationsLoop_spec p (mapSize m) m [] le_rfl
    (by simp) hinv
  constructor
  · show totalMsgs (getAnnotationsLoop p (mapSize m) [] m).2 = totalMsgs m - 50
    rw [e2]
    simp
  · exact e3

theorem applyBatch_iterate (p : String) (m : GroupedMessages)
    (hinv : Invariant m) :
    ∀ k : Nat, Invariant ((applyBatch p)^[k] m) ∧
      totalMsgs ((applyBatch p)^[k] m) = totalMsgs m - 50 * k := by
  intro k
  induction k with
  | zero => exact ⟨by simpa using hinv, by simp⟩
  | succ k ih =>
    obtain ⟨h1, h2⟩ := ih
    rw [Function.iterate_succ_apply']
    obtain ⟨t1, t2⟩ := applyBatch_spec p h1
    exact ⟨t2, by rw [t1, h2]; omega⟩

/-- Claim C1: on any map satisfying the Grouped Messages invariant, one
`getAnnotations` call returns at most 50 records, returns `null` exactly
when the map is already empty, and repeated calls on a map holding
`n > 0` messages drain it to empty in exactly `ceil(n / 50)` calls
(written `(n + 49) / 50`): that many applications empty the map and no
smaller number does. -/
theorem claim1_annotation_batcher (p : String) (m : GroupedMessages)
    (hinv : Invariant m) :
    (∀ anns, (getAnnotations p m).1 = some anns → anns.length ≤ 50) ∧
    ((getAnnotations p m).1 = none ↔ m = []) ∧
    (0 < totalMsgs m →
      (applyBatch p)^[(totalMsgs m + 49) / 50] m = [] ∧
      ∀ k < (totalMsgs m + 49) / 50, (applyBatch p)^[k] m ≠ []) := by
  obtain ⟨e1, e2, e3⟩ := getAnnotationsLoop_spec p (mapSize m) m [] le_rfl
    (by simp) hinv
  simp only [List.length_nil, Nat.zero_add, Nat.sub_zero] at e1 e2
  refine ⟨?_, ?_, ?_⟩
  · intro anns h
    rw [getAnnotations_fst] at h
    by_cases h0 : (getAnnotationsLoop p (mapSize m) [] m).1.length = 0
    · rw [if_pos h0] at h
      exact absurd h (by simp)
    · rw [if_neg h0] at h
      have heq : anns = (getAnnotationsLoop p (mapSize m) [] m).1 := by
        injection h with h'
        exact h'.symm
      rw [heq, e1]
      omega
  · rw [getAnnotations_fst]
    constructor
    · intro h
      by_cases h0 : (getAnnotationsLoop p (mapSize m) [] m).1.length = 0
      · rw [e1] at h0
        have ht : totalMsgs m = 0 := by omega
        exact (invariant_totalMsgs_eq_zero hinv).mp ht
      · rw [if_neg h0] at h
        exact absurd h (by simp)
    · intro h
      subst h
      rfl
  · intro hpos
    constructor
    · obtain ⟨hI, hT⟩ := applyBatch_iterate p m hinv ((totalMsgs m + 49) / 50)
      have ht0 : totalMsgs ((applyBatch p)^[(totalMsgs m + 49) / 50] m) = 0 := by
        rw [hT]
        omega
      exact (invariant_totalMsgs_eq_zero hI).mp ht0
    · intro k hk hcon
      obtain ⟨hI, hT⟩ := applyBatch_iterate p m hinv k
      rw [hcon] at hT
      simp only [totalMsgs] at hT
      omega

/-- Claim C1 witness: the batcher contract applied to a concrete two
message map (one batch suffices). -/
theorem claim1_annotation_batcher_witness :
    ((getAnnotations "f.svd" exMap2).1 = none ↔ exMap2 = []) ∧
    (applyBatch "f.svd")^[(totalMsgs exMap2 + 49) / 50] exMap2 = [] := by
  have h := claim1_annotation_batcher "f.svd" exMap2 (by decide)
  exact ⟨h.2.1, (h.2.2 (by decide)).1⟩

/-- Claim C6: the severity map of the annotation builder is total and
fixed — `info` maps to `notice`, `warning` to `warning`, and any other
level (i.e. `error`) to `error` — and the annotation message string is
exactly the Message's code, `": "`, and the Message's text, for every
Message regardless of code or line; moreover every record in any batch
`getAnnotations` returns is built this way from a key of the map and a
message stored under it. -/
theorem claim6_severity_mapping :
    (∀ (p : String) (k : JSNumber) (msg : Message),
      (mkAnnot p k msg).annot_level =
        (if msg.level = "info" then "notice"
         else if msg.level = "warning" then "warning" else "error") ∧
      (mkAnnot p k msg).message = msg.code ++ ": " ++ msg.message) ∧
    (∀ (p : String) (m : GroupedMessages) (anns : List Annot) (a : Annot),
      (getAnnotations p m).1 = some anns → a ∈ anns →
      ∃ k l msg, (k, l) ∈ m ∧ msg ∈ l ∧ a = mkAnnot p k msg) := by
  refine ⟨fun p k msg => ⟨rfl, rfl⟩, ?_⟩
  intro p m anns a h ha
  rw [getAnnotations_fst] at h
  by_cases h0 : (getAnnotationsLoop p (mapSize m) [] m).1.length = 0
  · rw [if_pos h0] at h
    exact absurd h (by simp)
  · rw [if_neg h0] at h
    have heq : anns = (getAnnotationsLoop p (mapSize m) [] m).1 := by
      injection h with h'
      exact h'.symm
    rw [heq] at ha
    rcases getAnnotationsLoop_mem p (mapSize m) m [] a ha with h' | h'
    · exact absurd h' (by simp)
    · exact h'

/-- Claim C6 witness: the severity map and batch provenance at a concrete
warning message and one-key map. -/
theorem claim6_severity_mapping_witness :
    (mkAnnot "f.svd" (JSNumber.num 3) exMsg).annot_level = "warning" ∧
    ∃ k l msg, (k, l) ∈ exMap ∧ msg ∈ l ∧
      mkAnnot "f.svd" (JSNumber.num 3) exMsg = mkAnnot "f.svd" k msg := by
  constructor
  · exact ((claim6_severity_mapping.1 "f.svd" (JSNumber.num 3) exMsg).1).trans
      (by rfl)
  · exact claim6_severity_mapping.2 "f.svd" exMap
      [mkAnnot "f.svd" (JSNumber.num 3) exMsg]
      (mkAnnot "f.svd" (JSNumber.num 3) exMsg) (by decide) (by decide)

/-- Claim C10: every key of the Grouped Messages map holds a non-empty
sequence: the map returned by a successful aggregation satisfies the
invariant, and every `getAnnotations` call preserves it (an emptied key
is deleted in the same iteration that empties it). -/
theorem claim10_nonempty_invariant :
    (∀ (buffer : String) (r : Result),
      parseMessages buffer = Except.ok r → Invariant r.messages) ∧
    (∀ (p : String) (m : GroupedMessages),
      Invariant m → Invariant (getAnnotations p m).2) := by
  constructor
  · intro buffer r h
    unfold parseMessages at h
    cases hr : runLines initialParserData [] (jsSplitLines buffer) with
    | error e => rw [hr] at h; exact absurd h (by simp)
    | ok md =>
      obtain ⟨m, d⟩ := md
      rw [hr] at h
      simp only [Except.ok.injEq] at h
      subst h
      exact runLines_invariant (jsSplitLines buffer) initialParserData [] m d
        (fun x hx => absurd hx (List.not_mem_nil x)) hr
  · intro p m hinv
    exact (getAnnotationsLoop_spec p (mapSize m) m [] le_rfl (by simp) hinv).2.2

/-- Claim C10 witness: the invariant at the concrete output of a parse
and after one batching call. -/
theorem claim10_nonempty_invariant_witness :
    Invariant ([(JSNumber.nan,
      [{ level := "info", code := "M1", line := JSNumber.nan,
         message := "d" }])] : GroupedMessages) ∧
    Invariant (getAnnotations "f.svd" exMap).2 := by
  constructor
  · exact claim10_nonempty_invariant.1 "*** INFO M1: x\nd"
      { messages := [(JSNumber.nan,
          [{ level := "info", code := "M1", line := JSNumber.nan,
             message := "d" }])],
        stats := { notes := 1, errors := 0, warnings := 0 } } (by decide)
  · exact claim10_nonempty_invariant.2 "f.svd" exMap (by decide)

end Svd
